import Mathlib

/-!
Shallow embedding of the two programs of this repository:
build_workflow_artifacts.py (the Artifact Collector) and
check_invocation.py (the Cache Checker).

Pure computations are translated directly.  Filesystem and process
effects are modelled as explicit data: a directory's contents are given
as a value, the walk of the source tree is given as the list of
directories it visits, and the filesystem writes a run performs are
collected into a trace of actions.  Log output is modelled (as pairs of
verbosity threshold and message) only for the helpers whose logging a
claim depends on; purely informational log calls elsewhere are console
output and are not part of any trace.
-/

/-- YAML values as produced by yaml.safe_load: scalars, sequences and
mappings.  Floats are omitted; no claim depends on them. -/
inductive Yaml where
  | null : Yaml
  | bool (b : Bool) : Yaml
  | int (n : Int) : Yaml
  | str (s : String) : Yaml
  | list (xs : List Yaml) : Yaml
  | dict (kvs : List (String × Yaml)) : Yaml

/-- Python truthiness of a YAML value: None, False, 0, empty string,
empty list and empty dict are falsy, everything else truthy. -/
def Yaml.truthy : Yaml → Bool
  | .null => false
  | .bool b => b
  | .int n => n != 0
  | .str s => s != ""
  | .list xs => !xs.isEmpty
  | .dict kvs => !kvs.isEmpty

/-- Python dict lookup d.get(k): the value stored at k, none when the
key is absent. -/
def dictGet (kvs : List (String × Yaml)) (k : String) : Option Yaml :=
  (kvs.find? (fun kv => kv.1 == k)).map (fun kv => kv.2)

/-- The value a list element contributes in the scan of
read_tests_job_mapping: some v when the element is a dict containing
the key "job" (v may be Yaml.null when the stored value is null),
none otherwise. -/
def jobEntryVal : Yaml → Option Yaml
  | .dict kvs => dictGet kvs ("job")
  | _ => none

/-- The for-loop of read_tests_job_mapping over a list-rooted document:
job_data is (re)assigned at every dict element containing "job", and the
loop breaks as soon as the assigned value is truthy. -/
def scanJob : List Yaml → Option Yaml → Option Yaml
  | [], acc => acc
  | item :: rest, acc =>
    match jobEntryVal item with
    | some v => if v.truthy then some v else scanJob rest (some v)
    | none => scanJob rest acc

/-- read_tests_job_mapping of build_workflow_artifacts.py, applied to an
already-parsed document: extracts the job mapping from a list-rooted or
dict-rooted document, returning none unless the extracted value is a
dict. -/
def read_tests_job_mapping (data : Yaml) : Option (List (String × Yaml)) :=
  let jobData : Option Yaml :=
    match data with
    | .list xs => if xs.isEmpty then none else scanJob xs none
    | .dict kvs => dictGet kvs ("job")
    | _ => none
  match jobData with
  | some (.dict kvs) => some kvs
  | _ => none

/-- A test YAML file as the collector sees it: its file name and the
result of reading and parsing it (none models a read or parse error,
which read_tests_job_mapping turns into a skip). -/
structure TestFile where
  name : String
  content : Option Yaml

/-- An entry of a source directory: a plain file (with the YAML parse of
its content, relevant only for test files) or a subdirectory. -/
inductive FsEntry where
  | file (name : String) (content : Option Yaml) : FsEntry
  | dir (name : String) : FsEntry

/-- Index of the last dot of a file name, as Python's str.rfind. -/
def lastDotIdx (name : String) : Option Nat :=
  match name.data.reverse.findIdx? (fun c => c == '.') with
  | some r => some (name.data.length - 1 - r)
  | none => none

/-- pathlib suffix: the extension of the final path component, empty
unless the last dot sits strictly inside the name. -/
def path_suffix (name : String) : String :=
  match lastDotIdx name with
  | some i => if 0 < i ∧ i < name.data.length - 1 then ⟨name.data.drop i⟩ else ("")
  | none => ""

/-- pathlib stem: the file name with its suffix removed. -/
def path_stem (name : String) : String :=
  match lastDotIdx name with
  | some i => if 0 < i ∧ i < name.data.length - 1 then ⟨name.data.take i⟩ else name
  | none => name

/-- find_ga_files: the regular files of the directory whose suffix is
exactly ".ga". -/
def find_ga_files (entries : List FsEntry) : List String :=
  entries.filterMap (fun e =>
    match e with
    | .file n _ => if path_suffix n == ".ga" then some n else none
    | .dir _ => none)

/-- find_tests_files: the regular files whose suffix lowercases to
".yml" and whose lowercased name ends in "-test.yml" or "-tests.yml". -/
def find_tests_files (entries : List FsEntry) : List TestFile :=
  entries.filterMap (fun e =>
    match e with
    | .file n c =>
      let lowerName := n.data.map Char.toLower
      if ((path_suffix n).data.map Char.toLower == ".yml".data)
          && (("-test.yml".data.isSuffixOf lowerName)
              || ("-tests.yml".data.isSuffixOf lowerName))
      then some ⟨n, c⟩ else none
    | .dir _ => none)

/-- The name normalisation inside similarity_score:
s.replace("-", "_").lower(), written character by character (replacing
the single character '-' and then lowercasing commute into one map). -/
def norm (s : String) : String :=
  ⟨s.data.map (fun c => if c = '-' then '_' else c.toLower)⟩

/-- os.path.commonprefix on two strings: the length of their character-
wise common prefix. -/
def commonPrefixLen : List Char → List Char → Nat
  | a :: as, b :: bs => if a = b then commonPrefixLen as bs + 1 else 0
  | _, _ => 0

/-- similarity_score of build_workflow_artifacts.py: an exact-match
bonus of 10 on the normalised names plus the length of their shared
prefix. -/
def similarity_score (a b : String) : Nat :=
  let an := norm a
  let bn := norm b
  (if an = bn then 10 else 0) + commonPrefixLen an.data bn.data

/-- Python max(x :: l, key=f): scans left to right keeping the current
best and replacing it only on a strictly larger key, hence returning
the first maximiser in list order. -/
def pyMax {α : Type} (f : α → Nat) (x : α) : List α → α
  | [] => x
  | y :: ys => pyMax f (if f y > f x then y else x) ys

/-- pick_matching_tests: none for no candidates, the unique candidate
when there is exactly one, otherwise the candidate whose stem maximises
similarity_score against the .ga stem (Python max, first wins ties). -/
def pick_matching_tests (gaStem : String) (tests : List TestFile) : Option TestFile :=
  match tests with
  | [] => none
  | [t] => some t
  | t :: ts => some (pyMax (fun u => similarity_score gaStem (path_stem u.name)) t ts)

/-- The matched tests file the job-generation loop of process_directory
ends up with: the pick, or the first tests file as fallback when the
pick produced nothing. -/
def matched_for (gaStem : String) (tests : List TestFile) : Option TestFile :=
  match pick_matching_tests gaStem tests with
  | some t => some t
  | none => tests.head?

/-- read_tests_job_mapping applied to a tests file, with a failed read
or parse (content = none) yielding none as in the source. -/
def read_tests_file (t : TestFile) : Option (List (String × Yaml)) :=
  match t.content with
  | some d => read_tests_job_mapping d
  | none => none

/-- The job mapping process_directory writes for one .ga stem given the
directory's tests files: the mapping extracted from the matched tests
file, except that a missing or falsy (empty) mapping is skipped. -/
def job_mapping_for (gaStem : String) (tests : List TestFile) : Option (List (String × Yaml)) :=
  match matched_for gaStem tests with
  | none => none
  | some t =>
    match read_tests_file t with
    | some kvs => if kvs.isEmpty then none else some kvs
    | none => none

/-- A filesystem write the Artifact Collector can perform.  Paths are
lists of components. -/
inductive FsAction where
  | mkdir (path : List String) : FsAction
  | copyFile (src dst : List String) : FsAction
  | copyTree (src dst : List String) : FsAction
  | writeJobYaml (dst : List String) (content : List (String × Yaml)) : FsAction

/-- Rendering of a path for log messages. -/
def pathStr (p : List String) : String :=
  String.intercalate ("/") p

/-- ensure_dir: in dry-run mode only a log line (printed at verbosity
1), otherwise a mkdir (parents included, existing ok). -/
def ensure_dir (dryRun : Bool) (path : List String) :
    List FsAction × List (Nat × String) :=
  if dryRun then ([], [(1, "Would create directory: " ++ pathStr path)])
  else ([FsAction.mkdir path], [])

/-- copy_file: in dry-run mode only a log line, otherwise a mkdir of the
destination's parent followed by the copy. -/
def copy_file (dryRun : Bool) (src dst : List String) :
    List FsAction × List (Nat × String) :=
  if dryRun then ([], [(0, "Would copy " ++ pathStr src ++ " -> " ++ pathStr dst)])
  else ([FsAction.mkdir dst.dropLast, FsAction.copyFile src dst],
        [(1, "Copied " ++ pathStr src ++ " -> " ++ pathStr dst)])

/-- copy_tree: in dry-run mode only a log line, otherwise a mkdir of the
destination's parent followed by the recursive copy. -/
def copy_tree (dryRun : Bool) (src dst : List String) :
    List FsAction × List (Nat × String) :=
  if dryRun then
    ([], [(0, "Would copy directory " ++ pathStr src ++ " -> " ++ pathStr dst)])
  else ([FsAction.mkdir dst.dropLast, FsAction.copyTree src dst],
        [(1, "Copied directory " ++ pathStr src ++ " -> " ++ pathStr dst)])

/-- write_job_yaml: in dry-run mode only a log line, otherwise a mkdir
of the destination's parent followed by the YAML dump. -/
def write_job_yaml (dryRun : Bool) (kvs : List (String × Yaml)) (out : List String) :
    List FsAction × List (Nat × String) :=
  if dryRun then ([], [(0, "Would write job YAML to " ++ pathStr out)])
  else ([FsAction.mkdir out.dropLast, FsAction.writeJobYaml out kvs],
        [(1, "Wrote job YAML: " ++ pathStr out)])

/-- Concatenation of (actions, logs) pairs in program order. -/
def joinPairs (l : List (List FsAction × List (Nat × String))) :
    List FsAction × List (Nat × String) :=
  ((l.map (fun p => p.1)).flatten, (l.map (fun p => p.2)).flatten)

/-- readme.exists(): any entry of the directory named README.md. -/
def has_readme (entries : List FsEntry) : Bool :=
  entries.any (fun e =>
    match e with
    | .file n _ => n == "README.md"
    | .dir n => n == "README.md")

/-- path.exists() and path.is_dir() for a named child: a subdirectory
entry of that name. -/
def has_subdir (entries : List FsEntry) (n : String) : Bool :=
  entries.any (fun e =>
    match e with
    | .dir m => m == n
    | .file _ _ => false)

/-- One iteration of the job-generation loop of process_directory: write
the job YAML when a non-falsy mapping was extracted, otherwise only an
informational log line. -/
def job_step (dryRun : Bool) (dst : List String) (gaName : String)
    (tests : List TestFile) : List FsAction × List (Nat × String) :=
  match job_mapping_for (path_stem gaName) tests with
  | some kvs => write_job_yaml dryRun kvs (dst ++ [path_stem gaName ++ ".yml"])
  | none => ([], [(1, "no job YAML written for " ++ gaName)])

/-- process_directory of build_workflow_artifacts.py on one source
directory: ensure the mirrored directory, copy README.md when present,
copy the test_data and test-data subdirectories when present, copy all
.ga files, and generate a job YAML per .ga file. -/
def process_directory (dryRun : Bool) (src dst : List String)
    (entries : List FsEntry) : List FsAction × List (Nat × String) :=
  joinPairs
    ([ensure_dir dryRun dst,
      if has_readme entries then
        copy_file dryRun (src ++ ["README.md"]) (dst ++ ["README.md"])
      else ([], []),
      if has_subdir entries ("test_data") then
        copy_tree dryRun (src ++ ["test_data"]) (dst ++ ["test_data"])
      else ([], []),
      if has_subdir entries ("test-data") then
        copy_tree dryRun (src ++ ["test-data"]) (dst ++ ["test-data"])
      else ([], [])]
      ++ (find_ga_files entries).map (fun g =>
            copy_file dryRun (src ++ [g]) (dst ++ [g]))
      ++ (find_ga_files entries).map (fun g =>
            job_step dryRun dst g (find_tests_files entries)))

/-- main of build_workflow_artifacts.py: exit code 2 when no directory
exists at the source path (the path is missing or is not a directory),
otherwise process every directory os.walk yields — the walk is given as
the list of (relative path, entries) pairs of the source tree — and
exit 0.  The returned pair is (exit code, (actions, logs)). -/
def main_run (srcExists srcIsDir dryRun : Bool) (srcRoot outRoot : List String)
    (walk : List (List String × List FsEntry)) :
    Nat × (List FsAction × List (Nat × String)) :=
  if srcExists && srcIsDir then
    (0, joinPairs (walk.map (fun w =>
      process_directory dryRun (srcRoot ++ w.1) (outRoot ++ w.1) w.2)))
  else (2, ([], []))

/-- A Galaxy job as the Cache Checker reads it from the jobs API: its id
and the copied_from_job_id field, None when the job was computed rather
than served from cache. -/
structure Job where
  id : String
  copied_from_job_id : Option String

/-- The external Galaxy HTTP API, abstracted as the data its two
successful endpoints return: the job listing of an invocation
(api/jobs?invocation_id=...) and the full detail of a job
(api/jobs/{id}). -/
structure GalaxyEnv where
  jobsOf : String → List Job
  detailOf : String → Job

/-- get_invocation_jobs: list the jobs of the invocation, then fetch the
full detail of each listed job by its id. -/
def get_invocation_jobs (env : GalaxyEnv) (invocationId : String) : List Job :=
  (env.jobsOf invocationId).map (fun j => env.detailOf j.id)

/-- The dictionary count_copied_invocation_jobs returns. -/
structure CountData where
  copied : Nat
  total : Nat
  invocation_id : String

/-- count_copied_invocation_jobs: among the fetched job details, how
many have a non-null copied_from_job_id, versus how many there are. -/
def count_copied_invocation_jobs (env : GalaxyEnv) (invocationId : String) : CountData :=
  let jobs := get_invocation_jobs env invocationId
  ⟨(jobs.filter (fun j => j.copied_from_job_id.isSome)).length, jobs.length, invocationId⟩

/-- The literal characters of the regex pattern prefix "Invocation <". -/
def invPat : List Char := "Invocation <".data

/-- The capture step of the regex Invocation <([^>]+)> once the literal
prefix has been consumed: one or more characters other than the closing
bracket, followed by the closing bracket. -/
def captureAfter (cs : List Char) : Option (List Char) :=
  match cs.dropWhile (fun c => c != '>') with
  | '>' :: _ =>
    let idc := cs.takeWhile (fun c => c != '>')
    if idc.isEmpty then none else some idc
  | _ => none

/-- Whether the regex matches at the start of cs, and its capture. -/
def matchInvocationAt (cs : List Char) : Option (List Char) :=
  if invPat.isPrefixOf cs then captureAfter (cs.drop invPat.length) else none

/-- re.search of the pattern Invocation <([^>]+)>: try every start
position left to right and return the capture of the first match. -/
def searchInvocation : List Char → Option (List Char)
  | [] => none
  | c :: rest =>
    match matchInvocationAt (c :: rest) with
    | some idc => some idc
    | none => searchInvocation rest

/-- run_planemo_and_get_invocation_id restricted to the path where the
subprocess ran and produced the given combined stdout+stderr output: the
capture of the first regex match, or None when there is no match. -/
def run_planemo_and_get_invocation_id (output : String) : Option String :=
  (searchInvocation output.data).map (fun idc => ⟨idc⟩)

/-- The result dictionary of run_workflow_and_check_cache. -/
structure CacheResult where
  invocation_id : String
  rerun_invocation_id : String
  copied : Nat
  total : Nat
  success : Bool

/-- run_workflow_and_check_cache, over the combined outputs of the two
planemo subprocesses and the abstracted jobs API: extract both
invocation ids (a falsy id — None or empty — raises RuntimeError),
count copied versus total jobs of the rerun invocation, and declare
success when every rerun job is copied and there is at least one. -/
def run_workflow_and_check_cache (out1 out2 : String) (env : GalaxyEnv) :
    Except String CacheResult :=
  match run_planemo_and_get_invocation_id out1 with
  | none => Except.error ("Could not get invocation ID from the initial run.")
  | some id1 =>
    if id1 = "" then Except.error ("Could not get invocation ID from the initial run.")
    else
      match run_planemo_and_get_invocation_id out2 with
      | none => Except.error ("Could not get invocation ID from the rerun.")
      | some id2 =>
        if id2 = "" then Except.error ("Could not get invocation ID from the rerun.")
        else
          let cd := count_copied_invocation_jobs env id2
          Except.ok ⟨id1, id2, cd.copied, cd.total,
            (cd.copied == cd.total) && decide (0 < cd.total)⟩

/-- main of check_invocation.py: any exception raised by
run_workflow_and_check_cache is caught and turned into sys.exit(1);
otherwise the results are printed and the process ends with code 0. -/
def check_main (out1 out2 : String) (env : GalaxyEnv) : Nat :=
  match run_workflow_and_check_cache out1 out2 env with
  | Except.error _ => 1
  | Except.ok _ => 0

/-- An HTTP response as GalaxyWrap.make_get_request sees it: the status
code and the decoded JSON body. -/
structure HttpResponse where
  status_code : Nat
  body : Yaml

/-- The Python exceptions the request wrapper can raise: the script's
APIError, and the KeyError and TypeError that subscripting the decoded
body can raise. -/
inductive PyError where
  | apiError (msg : Yaml) : PyError
  | keyError (k : String) : PyError
  | typeError : PyError

/-- Python subscription v[k] on a decoded JSON value: the value at the
key of a mapping, KeyError when the key is absent, TypeError when the
value is not a mapping. -/
def json_index (v : Yaml) (k : String) : Except PyError Yaml :=
  match v with
  | .dict kvs =>
    match dictGet kvs k with
    | some x => Except.ok x
    | none => Except.error (PyError.keyError k)
  | _ => Except.error PyError.typeError

/-- GalaxyWrap.make_get_request: on a non-200 status raise
APIError(body["err_msg"]) — where the subscription itself can raise —
and on status 200 return the decoded JSON body. -/
def make_get_request (r : HttpResponse) : Except PyError Yaml :=
  if r.status_code != 200 then
    match json_index r.body ("err_msg") with
    | Except.ok m => Except.error (PyError.apiError m)
    | Except.error e => Except.error e
  else Except.ok r.body

/-- The exit code of check_invocation.py's main as a function of the
outcome of the computation it wraps: every raised error is caught and
mapped to sys.exit(1), a normal return ends the process with 0. -/
def cli_exit {α : Type} (res : Except PyError α) : Nat :=
  match res with
  | Except.error _ => 1
  | Except.ok _ => 0

/-- Formalisation of claim C1 exactly as stated: the job file contains
the mapping under the key "job" of a dictionary-rooted document, or the
"job" mapping of the first list element that contains that key; if the
document yields no such mapping, no job file is written. -/
def specJobMapping (doc : Yaml) : Option (List (String × Yaml)) :=
  match doc with
  | .dict kvs =>
    match dictGet kvs ("job") with
    | some (.dict j) => some j
    | _ => none
  | .list xs =>
    match xs.find? (fun item => (jobEntryVal item).isSome) with
    | some item =>
      match jobEntryVal item with
      | some (.dict j) => some j
      | _ => none
    | none => none
  | _ => none

/-- The amended form of claim C1, following the code: the candidate job
value is, for a dictionary root, the value under "job"; for a list root
it is the job value of the first element containing the key whose job
value is truthy, or, when none is truthy, of the last element containing
the key.  A job file is written exactly when the candidate is a
non-empty mapping, and then contains exactly that mapping. -/
def specJobMappingAmended (doc : Yaml) : Option (List (String × Yaml)) :=
  let selected : Option Yaml :=
    match doc with
    | .dict kvs => dictGet kvs ("job")
    | .list xs =>
      let cands := xs.filterMap jobEntryVal
      match cands.find? Yaml.truthy with
      | some v => some v
      | none => cands.getLast?
    | _ => none
  match selected with
  | some (.dict j) => if j.isEmpty then none else some j
  | _ => none

/-- Sample environment for witnesses: one job, served from cache. -/
def envOneCopied : GalaxyEnv :=
  ⟨fun _ => [⟨"j1", some ("orig")⟩], fun i => ⟨i, some ("orig")⟩⟩

/-- A (not necessarily first) match of the regex Invocation <([^>]+)> in
cs, starting after the prefix pre: the literal pattern, then the
captured identifier — non-empty and free of closing brackets — then the
closing bracket. -/
def InvMatchAt (cs pre idc : List Char) : Prop :=
  (∃ post, cs = pre ++ invPat ++ idc ++ '>' :: post) ∧ idc ≠ [] ∧ '>' ∉ idc

theorem getLast?_cons_eq {α : Type} (a : α) (l : List α) :
    (a :: l).getLast? = some (match l.getLast? with | some x => x | none => a) := by
  induction l generalizing a with
  | nil => rfl
  | cons b bs ih =>
    rw [List.getLast?_cons_cons, ih b]

/-- The loop of read_tests_job_mapping computes: the first truthy job
value among the elements containing the key, else the job value of the
last element containing the key, else the initial accumulator. -/
theorem scanJob_eq (xs : List Yaml) (acc : Option Yaml) :
    scanJob xs acc =
      match (xs.filterMap jobEntryVal).find? Yaml.truthy with
      | some v => some v
      | none =>
        match (xs.filterMap jobEntryVal).getLast? with
        | some v => some v
        | none => acc := by
  induction xs generalizing acc with
  | nil => rfl
  | cons x rest ih =>
    cases hx : jobEntryVal x with
    | none =>
      simp only [scanJob, hx, List.filterMap_cons, ih]
    | some v =>
      simp only [scanJob, hx, List.filterMap_cons]
      cases htv : v.truthy with
      | true => simp [List.find?_cons, htv]
      | false =>
        rw [ih (some v)]
        simp only [List.find?_cons, htv, Bool.false_eq_true, if_false]
        cases hf : (rest.filterMap jobEntryVal).find? Yaml.truthy with
        | some w => rfl
        | none =>
          rw [getLast?_cons_eq]
          cases hg : (rest.filterMap jobEntryVal).getLast? with
          | some w => rfl
          | none => rfl

/-- CLAIM C1 counterexample: a dictionary-rooted test document whose
"job" key holds the empty mapping.  The claim as stated demands a job
file containing exactly that (empty) mapping; the code writes no job
file at all, because process_directory skips falsy mappings. -/
theorem c1_claim_counterexample :
    job_mapping_for ("wf") [⟨"wf-test.yml", some (Yaml.dict [("job", Yaml.dict [])])⟩]
        ≠ specJobMapping (Yaml.dict [("job", Yaml.dict [])])
    ∧ job_mapping_for ("wf") [⟨"wf-test.yml", some (Yaml.dict [("job", Yaml.dict [])])⟩] = none
    ∧ specJobMapping (Yaml.dict [("job", Yaml.dict [])]) = some [] := by
  refine ⟨?_, rfl, rfl⟩
  intro h
  rw [show job_mapping_for ("wf") [⟨"wf-test.yml", some (Yaml.dict [("job", Yaml.dict [])])⟩]
        = none from rfl,
      show specJobMapping (Yaml.dict [("job", Yaml.dict [])]) = some [] from rfl] at h
  exact Option.noConfusion h

/-- CLAIM C1 (amended): for a directory with exactly one .ga file and
one (readable) test file, the job-file content produced by the
collector equals the amended specification: the job value selected from
the document — the value under "job" for a dict root; the first truthy
job value of the list elements containing the key, else the last such
value, for a list root — is written exactly when it is a non-empty
mapping. -/
theorem c1_job_extraction_amended (gaStem nm : String) (doc : Yaml) :
    job_mapping_for gaStem [⟨nm, some doc⟩] = specJobMappingAmended doc := by
  have hread : job_mapping_for gaStem [⟨nm, some doc⟩]
      = (match read_tests_job_mapping doc with
         | some kvs => if kvs.isEmpty then none else some kvs
         | none => none) := rfl
  rw [hread]
  cases doc with
  | null => rfl
  | bool b => rfl
  | int n => rfl
  | str s => rfl
  | dict kvs =>
    simp only [read_tests_job_mapping, specJobMappingAmended]
    cases h : dictGet kvs ("job") with
    | none => rfl
    | some v => cases v <;> rfl
  | list xs =>
    cases xs with
    | nil => rfl
    | cons y ys =>
      simp only [read_tests_job_mapping, specJobMappingAmended, List.isEmpty_cons,
        Bool.false_eq_true, if_false, scanJob_eq]
      cases hf : ((y :: ys).filterMap jobEntryVal).find? Yaml.truthy with
      | some v => cases v <;> rfl
      | none =>
        cases hg : ((y :: ys).filterMap jobEntryVal).getLast? with
        | none => rfl
        | some v => cases v <;> rfl

/-- CLAIM C4: for every rerun identifier, the Cache Checker's job-count
step reports total = the number of jobs the jobs API lists for that
invocation (one detail fetch per listed job), copied = the number of
fetched job details whose copied_from_job_id is non-null, copied never
exceeding total, under the queried invocation id. -/
theorem c4_copied_total_counts (env : GalaxyEnv) (inv : String) :
    (count_copied_invocation_jobs env inv).total = (env.jobsOf inv).length
    ∧ (count_copied_invocation_jobs env inv).copied
        = (get_invocation_jobs env inv).countP (fun j => j.copied_from_job_id.isSome)
    ∧ (count_copied_invocation_jobs env inv).copied
        ≤ (count_copied_invocation_jobs env inv).total
    ∧ (count_copied_invocation_jobs env inv).invocation_id = inv := by
  refine ⟨?_, ?_, ?_, rfl⟩
  · simp [count_copied_invocation_jobs, get_invocation_jobs]
  · simp [count_copied_invocation_jobs, List.countP_eq_length_filter]
  · simpa [count_copied_invocation_jobs] using
      List.length_filter_le (fun j => j.copied_from_job_id.isSome) (get_invocation_jobs env inv)

/-- CLAIM C3: whenever run_workflow_and_check_cache returns a result,
its success flag is true exactly when the copied count equals the total
count and the total is positive; in particular copied = total = N > 0
gives success and total = 0 gives failure. -/
theorem c3_success_iff_all_copied (out1 out2 : String) (env : GalaxyEnv)
    (r : CacheResult) (h : run_workflow_and_check_cache out1 out2 env = Except.ok r) :
    r.success = true ↔ (r.copied = r.total ∧ 0 < r.total) := by
  unfold run_workflow_and_check_cache at h
  split at h
  · exact absurd h (by simp)
  · split at h
    · exact absurd h (by simp)
    · split at h
      · exact absurd h (by simp)
      · split at h
        · exact absurd h (by simp)
        · cases h
          simp [Bool.and_eq_true, beq_iff_eq, decide_eq_true_eq]

theorem c3_success_iff_all_copied_witness :
    (⟨"abc", "def", 1, 1, true⟩ : CacheResult).success = true ↔
      ((⟨"abc", "def", 1, 1, true⟩ : CacheResult).copied
          = (⟨"abc", "def", 1, 1, true⟩ : CacheResult).total
        ∧ 0 < (⟨"abc", "def", 1, 1, true⟩ : CacheResult).total) :=
  c3_success_iff_all_copied ("Invocation <abc>") ("Invocation <def>") envOneCopied
    ⟨"abc", "def", 1, 1, true⟩ rfl

/-- CLAIM C7: the Artifact Collector exits with code 2 exactly when no
directory exists at the source path (pathlib: the path is missing or is
not a directory, is_dir() being false in both cases), and with code 0
in every other case. -/
theorem c7_exit_codes (srcExists srcIsDir dryRun : Bool) (srcRoot outRoot : List String)
    (walk : List (List String × List FsEntry)) :
    ((main_run srcExists srcIsDir dryRun srcRoot outRoot walk).1 = 2
        ↔ (srcExists && srcIsDir) = false)
    ∧ ((main_run srcExists srcIsDir dryRun srcRoot outRoot walk).1 = 0
        ↔ (srcExists && srcIsDir) = true) := by
  unfold main_run
  cases h : srcExists && srcIsDir <;> simp [h]

/-- Python max with a key function returns the first maximiser: the
scanned list decomposes around the result, every element's key is
bounded by the result's key, and every element strictly before the
result has a strictly smaller key. -/
theorem pyMax_first_argmax {α : Type} (f : α → Nat) :
    ∀ (l : List α) (x : α), ∃ l1 l2,
      x :: l = l1 ++ pyMax f x l :: l2
      ∧ (∀ u ∈ x :: l, f u ≤ f (pyMax f x l))
      ∧ (∀ u ∈ l1, f u < f (pyMax f x l)) := by
  intro l
  induction l with
  | nil =>
    intro x
    refine ⟨[], [], rfl, ?_, by simp⟩
    intro u hu
    rw [List.mem_singleton] at hu
    subst hu
    exact Nat.le_refl _
  | cons y ys ih =>
    intro x
    by_cases hc : f y > f x
    · obtain ⟨l1, l2, hdec, hub, hlt⟩ := ih y
      have hstep : pyMax f x (y :: ys) = pyMax f y ys := by
        simp only [pyMax, if_pos hc]
      rw [hstep]
      have hyr : f y ≤ f (pyMax f y ys) := hub y (List.mem_cons_self _ _)
      have hxr : f x < f (pyMax f y ys) := Nat.lt_of_lt_of_le hc hyr
      have hub2 : ∀ u ∈ x :: y :: ys, f u ≤ f (pyMax f y ys) := by
        intro u hu
        rcases List.mem_cons.mp hu with rfl | hu'
        · exact Nat.le_of_lt hxr
        · exact hub u hu'
      cases l1 with
      | nil =>
        simp only [List.nil_append] at hdec
        injection hdec with h1 h2
        refine ⟨[x], l2, ?_, hub2, ?_⟩
        · rw [List.singleton_append, ← h1, ← h2]
        · intro u hu
          rw [List.mem_singleton] at hu
          subst hu
          exact hxr
      | cons z l1' =>
        simp only [List.cons_append] at hdec
        injection hdec with h1 h2
        refine ⟨x :: y :: l1', l2, ?_, hub2, ?_⟩
        · simp only [List.cons_append]
          rw [← h2]
        · intro u hu
          have hzy : f y < f (pyMax f y ys) := by
            have hz := hlt z (List.mem_cons_self _ _)
            rwa [← h1] at hz
          rcases List.mem_cons.mp hu with rfl | hu'
          · exact Nat.lt_trans hc hzy
          · rcases List.mem_cons.mp hu' with rfl | hu''
            · exact hzy
            · exact hlt u (List.mem_cons_of_mem _ hu'')
    · obtain ⟨l1, l2, hdec, hub, hlt⟩ := ih x
      have hstep : pyMax f x (y :: ys) = pyMax f x ys := by
        simp only [pyMax, if_neg hc]
      rw [hstep]
      have hyx : f y ≤ f x := Nat.le_of_not_lt hc
      have hxr : f x ≤ f (pyMax f x ys) := hub x (List.mem_cons_self _ _)
      have hub2 : ∀ u ∈ x :: y :: ys, f u ≤ f (pyMax f x ys) := by
        intro u hu
        rcases List.mem_cons.mp hu with rfl | hu'
        · exact hxr
        · rcases List.mem_cons.mp hu' with rfl | hu''
          · exact Nat.le_trans hyx hxr
          · exact hub u (List.mem_cons_of_mem _ hu'')
      cases l1 with
      | nil =>
        simp only [List.nil_append] at hdec
        injection hdec with h1 h2
        refine ⟨[], y :: l2, ?_, hub2, by simp⟩
        simp only [List.nil_append]
        rw [← h1, ← h2]
      | cons z l1' =>
        simp only [List.cons_append] at hdec
        injection hdec with h1 h2
        refine ⟨x :: y :: l1', l2, ?_, hub2, ?_⟩
        · simp only [List.cons_append]
          rw [← h2]
        · intro u hu
          have hzx : f x < f (pyMax f x ys) := by
            have hz := hlt z (List.mem_cons_self _ _)
            rwa [← h1] at hz
          rcases List.mem_cons.mp hu with rfl | hu'
          · exact hzx
          · rcases List.mem_cons.mp hu' with rfl | hu''
            · exact Nat.lt_of_le_of_lt hyx hzx
            · exact hlt u (List.mem_cons_of_mem _ hu'')

/-- CLAIM C2: with two or more candidate test files none of which
matches the .ga stem exactly, the collector scores candidates with the
pure function similarity_score — an exact-match bonus on the normalised
(case-folded, hyphen-to-underscore) stems plus the length of their
shared prefix — and picks the candidate with the highest score, ties
resolving to the earliest candidate in the given collection order. -/
theorem c2_pick_first_highest_score (gaStem : String) (tests : List TestFile)
    (hlen : 2 ≤ tests.length)
    (hnoexact : ∀ t ∈ tests, path_stem t.name ≠ gaStem) :
    (∀ a b : String, similarity_score a b
        = (if norm a = norm b then 10 else 0) + commonPrefixLen (norm a).data (norm b).data)
    ∧ ∃ t l1 l2, pick_matching_tests gaStem tests = some t
        ∧ tests = l1 ++ t :: l2
        ∧ (∀ u ∈ tests,
            similarity_score gaStem (path_stem u.name)
              ≤ similarity_score gaStem (path_stem t.name))
        ∧ (∀ u ∈ l1,
            similarity_score gaStem (path_stem u.name)
              < similarity_score gaStem (path_stem t.name)) := by
  refine ⟨fun a b => rfl, ?_⟩
  match tests with
  | [] => simp at hlen
  | [t] => simp at hlen
  | t1 :: t2 :: ts =>
    obtain ⟨l1, l2, hdec, hub, hlt⟩ :=
      pyMax_first_argmax (fun u => similarity_score gaStem (path_stem u.name)) (t2 :: ts) t1
    exact ⟨pyMax (fun u => similarity_score gaStem (path_stem u.name)) t1 (t2 :: ts),
      l1, l2, rfl, hdec, hub, hlt⟩

theorem c2_pick_first_highest_score_witness :
    (∀ a b : String, similarity_score a b
        = (if norm a = norm b then 10 else 0) + commonPrefixLen (norm a).data (norm b).data)
    ∧ ∃ t l1 l2,
        pick_matching_tests ("alpha") [⟨"alpha-test.yml", none⟩, ⟨"beta-tests.yml", none⟩]
            = some t
        ∧ [⟨"alpha-test.yml", none⟩, ⟨"beta-tests.yml", none⟩] = l1 ++ t :: l2
        ∧ (∀ u ∈ [(⟨"alpha-test.yml", none⟩ : TestFile), ⟨"beta-tests.yml", none⟩],
            similarity_score ("alpha") (path_stem u.name)
              ≤ similarity_score ("alpha") (path_stem t.name))
        ∧ (∀ u ∈ l1,
            similarity_score ("alpha") (path_stem u.name)
              < similarity_score ("alpha") (path_stem t.name)) :=
  c2_pick_first_highest_score ("alpha") [⟨"alpha-test.yml", none⟩, ⟨"beta-tests.yml", none⟩]
    (by decide) (by decide)

/-- CLAIM C10: for a non-empty candidate list, pick_matching_tests
always returns some element of the list, and therefore the fallback
branch of process_directory never changes the selection: matched_for
agrees with the pick. -/
theorem c10_pick_total_on_nonempty (gaStem : String) (tests : List TestFile)
    (h : tests ≠ []) :
    ∃ t, pick_matching_tests gaStem tests = some t ∧ t ∈ tests
      ∧ matched_for gaStem tests = some t := by
  match tests with
  | [] => exact absurd rfl h
  | [t] => exact ⟨t, rfl, List.mem_singleton.mpr rfl, rfl⟩
  | t1 :: t2 :: ts =>
    obtain ⟨l1, l2, hdec, hub, hlt⟩ :=
      pyMax_first_argmax (fun u => similarity_score gaStem (path_stem u.name)) (t2 :: ts) t1
    refine ⟨pyMax (fun u => similarity_score gaStem (path_stem u.name)) t1 (t2 :: ts),
      rfl, ?_, rfl⟩
    rw [hdec]
    exact List.mem_append.mpr (Or.inr (List.mem_cons_self _ _))

theorem c10_pick_total_on_nonempty_witness :
    ∃ t, pick_matching_tests ("wf") [⟨"wf-test.yml", none⟩] = some t
      ∧ t ∈ [(⟨"wf-test.yml", none⟩ : TestFile)]
      ∧ matched_for ("wf") [⟨"wf-test.yml", none⟩] = some t :=
  c10_pick_total_on_nonempty ("wf") [⟨"wf-test.yml", none⟩] (List.cons_ne_nil _ _)

theorem job_step_dry_actions (dst : List String) (g : String) (T : List TestFile) :
    (job_step true dst g T).1 = [] := by
  unfold job_step
  cases job_mapping_for (path_stem g) T <;> simp [write_job_yaml]

theorem process_directory_dry_actions (src dst : List String) (es : List FsEntry) :
    (process_directory true src dst es).1 = [] := by
  unfold process_directory joinPairs
  rw [List.flatten_eq_nil_iff]
  intro l hl
  rw [List.map_append, List.map_append] at hl
  rcases List.mem_append.mp hl with hl' | hga
  · rcases List.mem_append.mp hl' with h4 | hga
    · simp only [List.map_cons, List.map_nil, List.mem_cons, List.not_mem_nil, or_false] at h4
      rcases h4 with rfl | rfl | rfl | rfl
      · rfl
      · split <;> rfl
      · split <;> rfl
      · split <;> rfl
    · obtain ⟨pr, hpr, rfl⟩ := List.mem_map.mp hga
      obtain ⟨g, hg, rfl⟩ := List.mem_map.mp hpr
      rfl
  · obtain ⟨pr, hpr, rfl⟩ := List.mem_map.mp hga
    obtain ⟨g, hg, rfl⟩ := List.mem_map.mp hpr
    exact job_step_dry_actions dst g (find_tests_files es)

/-- CLAIM C5: with the dry-run flag set, the Artifact Collector emits
no filesystem action at all — no directory creation, no file or tree
copy, no job YAML write — while each dry-run helper still logs the
hypothetical action it would have performed. -/
theorem c5_dry_run_writes_nothing :
    (∀ (se sd : Bool) (sr outr : List String) (walk : List (List String × List FsEntry)),
        (main_run se sd true sr outr walk).2.1 = [])
    ∧ (∀ p, ensure_dir true p = ([], [(1, "Would create directory: " ++ pathStr p)]))
    ∧ (∀ s d, copy_file true s d
        = ([], [(0, "Would copy " ++ pathStr s ++ " -> " ++ pathStr d)]))
    ∧ (∀ s d, copy_tree true s d
        = ([], [(0, "Would copy directory " ++ pathStr s ++ " -> " ++ pathStr d)]))
    ∧ (∀ kvs o, write_job_yaml true kvs o
        = ([], [(0, "Would write job YAML to " ++ pathStr o)])) := by
  refine ⟨?_, fun p => rfl, fun s d => rfl, fun s d => rfl, fun kvs o => rfl⟩
  intro se sd sr outr walk
  unfold main_run
  cases h : se && sd
  · simp
  · simp only [if_pos]
    unfold joinPairs
    rw [List.map_map, List.flatten_eq_nil_iff]
    intro l hl
    obtain ⟨w, hw, rfl⟩ := List.mem_map.mp hl
    exact process_directory_dry_actions (sr ++ w.1) (outr ++ w.1) w.2

/-- CLAIM C6: after a non-dry run on an existing source directory, every
directory the walk of the source tree visits has a mkdir of its
mirrored relative path in the output tree among the emitted actions
(ensure_dir runs unconditionally, whether or not the directory holds
copyable files). -/
theorem c6_mirrored_directories (srcRoot outRoot : List String)
    (walk : List (List String × List FsEntry)) (rel : List String) (es : List FsEntry)
    (h : (rel, es) ∈ walk) :
    FsAction.mkdir (outRoot ++ rel) ∈ (main_run true true false srcRoot outRoot walk).2.1 := by
  unfold main_run
  simp only [Bool.and_self, if_pos]
  unfold joinPairs
  rw [List.map_map]
  apply List.mem_flatten.mpr
  refine ⟨(process_directory false (srcRoot ++ rel) (outRoot ++ rel) es).1,
    List.mem_map.mpr ⟨(rel, es), h, rfl⟩, ?_⟩
  unfold process_directory joinPairs
  exact List.mem_flatten.mpr ⟨[FsAction.mkdir (outRoot ++ rel)],
    List.mem_map.mpr ⟨ensure_dir false (outRoot ++ rel),
      List.mem_append.mpr (Or.inl (List.mem_append.mpr (Or.inl (List.mem_cons_self _ _)))),
      rfl⟩,
    List.mem_singleton.mpr rfl⟩

theorem c6_mirrored_directories_witness :
    FsAction.mkdir (["out"] ++ ([] : List String)) ∈
      (main_run true true false ["src"] ["out"]
        [(([] : List String), ([] : List FsEntry))]).2.1 :=
  c6_mirrored_directories ["src"] ["out"] [(([] : List String), ([] : List FsEntry))]
    [] [] (List.mem_singleton.mpr rfl)


theorem takeWhile_append_gtChar (idc post : List Char) (h : '>' ∉ idc) :
    (idc ++ '>' :: post).takeWhile (fun c => c != '>') = idc
    ∧ (idc ++ '>' :: post).dropWhile (fun c => c != '>') = '>' :: post := by
  induction idc with
  | nil =>
    constructor
    · simp [List.takeWhile_cons]
    · simp [List.dropWhile_cons]
  | cons c cs ih =>
    have hc : c ≠ '>' := fun hh => h (hh ▸ List.mem_cons_self _ _)
    have hmem : '>' ∉ cs := fun hh => h (List.mem_cons_of_mem _ hh)
    obtain ⟨h1, h2⟩ := ih hmem
    have hb : (c != '>') = true := bne_iff_ne.mpr hc
    constructor
    · simp [List.takeWhile_cons, hb, h1]
    · simp [List.dropWhile_cons, hb, h2]

theorem captureAfter_app (idc post : List Char) (h1 : idc ≠ []) (h2 : '>' ∉ idc) :
    captureAfter (idc ++ '>' :: post) = some idc := by
  obtain ⟨ht, hd⟩ := takeWhile_append_gtChar idc post h2
  have hne : idc.isEmpty = false := by
    cases idc with
    | nil => exact absurd rfl h1
    | cons a as => rfl
  unfold captureAfter
  rw [hd, ht]
  simp [hne]

theorem matchAt_app (idc post : List Char) (h1 : idc ≠ []) (h2 : '>' ∉ idc) :
    matchInvocationAt (invPat ++ (idc ++ '>' :: post)) = some idc := by
  unfold matchInvocationAt
  rw [if_pos ( List.isPrefixOf_iff_prefix.mpr ( List.prefix_append _ _)), List.drop_left]
  exact captureAfter_app idc post h1 h2

theorem dropWhile_head_false {p : Char → Bool} :
    ∀ (l : List Char) (c : Char) (tail : List Char),
      l.dropWhile p = c :: tail → p c = false := by
  intro l
  induction l with
  | nil => intro c tail h; cases h
  | cons a as ih =>
    intro c tail h
    rw [List.dropWhile_cons] at h
    by_cases hp : p a
    · rw [if_pos hp] at h
      exact ih c tail h
    · rw [if_neg hp] at h
      injection h with hac htail
      rw [← hac]
      simpa using hp

theorem matchAt_sound (cs idc : List Char) (h : matchInvocationAt cs = some idc) :
    InvMatchAt cs [] idc := by
  unfold matchInvocationAt at h
  by_cases hp : invPat.isPrefixOf cs
  · rw [if_pos hp] at h
    obtain ⟨rest, hrest⟩ := List.isPrefixOf_iff_prefix.mp hp
    subst hrest
    rw [List.drop_left] at h
    unfold captureAfter at h
    cases hdw : rest.dropWhile (fun c => c != '>') with
    | nil => rw [hdw] at h; simp at h
    | cons c tail =>
      have hcf : (c != '>') = false := dropWhile_head_false rest c tail hdw
      have hc : c = '>' := by
        by_cases hcc : c = '>'
        · exact hcc
        · rw [bne_iff_ne.mpr hcc] at hcf; cases hcf
      subst hc
      rw [hdw] at h
      simp only [] at h
      by_cases he : (rest.takeWhile (fun c => c != '>')).isEmpty
      · rw [if_pos he] at h; cases h
      · rw [if_neg he] at h
        injection h with htw
        have hsplit := (@List.takeWhile_append_dropWhile Char (fun c => c != '>') rest).symm
        rw [hdw, htw] at hsplit
        refine ⟨⟨tail, ?_⟩, ?_, ?_⟩
        · rw [hsplit]; simp
        · intro hnil
          rw [← htw] at hnil
          rw [hnil] at he
          exact he rfl
        · intro hmem
          rw [← htw] at hmem
          have := List.mem_takeWhile_imp hmem
          simp at this
  · rw [if_neg hp] at h
    cases h

theorem searchInvocation_sound :
    ∀ (cs idc : List Char), searchInvocation cs = some idc →
      ∃ pre, InvMatchAt cs pre idc
        ∧ ∀ pre' idc', InvMatchAt cs pre' idc' → pre.length ≤ pre'.length := by
  intro cs
  induction cs with
  | nil => intro idc h; cases h
  | cons c rest ih =>
    intro idc h
    unfold searchInvocation at h
    cases hm : matchInvocationAt (c :: rest) with
    | some j =>
      rw [hm] at h
      injection h with hj
      subst hj
      exact ⟨[], matchAt_sound _ _ hm, fun pre' idc' hmm' => Nat.zero_le _⟩
    | none =>
      rw [hm] at h
      obtain ⟨pre0, hmatch0, hmin0⟩ := ih idc h
      obtain ⟨⟨post, hdec⟩, hg1, hg2⟩ := hmatch0
      refine ⟨c :: pre0, ⟨⟨post, by rw [hdec]; simp⟩, hg1, hg2⟩, ?_⟩
      intro pre' idc' hmm'
      obtain ⟨⟨post', hdec'⟩, hg1', hg2'⟩ := hmm'
      cases pre' with
      | nil =>
        exfalso
        have hd : c :: rest = invPat ++ (idc' ++ '>' :: post') := by simpa using hdec'
        have hmm2 : matchInvocationAt (c :: rest) = some idc' := by
          rw [hd]; exact matchAt_app idc' post' hg1' hg2'
        rw [hmm2] at hm
        cases hm
      | cons c0 pre'' =>
        have hd : c :: rest = c0 :: (pre'' ++ invPat ++ idc' ++ '>' :: post') := by
          simpa using hdec'
        injection hd with hc0 hrest
        have := hmin0 pre'' idc' ⟨⟨post', hrest⟩, hg1', hg2'⟩
        exact Nat.succ_le_succ this

theorem searchInvocation_complete :
    ∀ (pre cs idc : List Char), InvMatchAt cs pre idc →
      (searchInvocation cs).isSome = true := by
  intro pre
  induction pre with
  | nil =>
    intro cs idc hm
    obtain ⟨⟨post, hdec⟩, h1, h2⟩ := hm
    have hd : cs = invPat ++ (idc ++ '>' :: post) := by simpa using hdec
    have hmatch : matchInvocationAt cs = some idc := by
      rw [hd]; exact matchAt_app idc post h1 h2
    cases cs with
    | nil =>
      have hnone : matchInvocationAt ([] : List Char) = none := rfl
      rw [hnone] at hmatch
      cases hmatch
    | cons c rest =>
      unfold searchInvocation
      rw [hmatch]
      rfl
  | cons c0 pre' ih =>
    intro cs idc hm
    obtain ⟨⟨post, hdec⟩, h1, h2⟩ := hm
    have hd : cs = c0 :: (pre' ++ invPat ++ idc ++ '>' :: post) := by simpa using hdec
    subst hd
    unfold searchInvocation
    cases hmm : matchInvocationAt (c0 :: (pre' ++ invPat ++ idc ++ '>' :: post)) with
    | some j => rfl
    | none =>
      exact ih (pre' ++ invPat ++ idc ++ '>' :: post) idc ⟨⟨post, rfl⟩, h1, h2⟩

theorem searchInvocation_none_of_no_match (cs : List Char)
    (h : ¬ ∃ pre idc, InvMatchAt cs pre idc) : searchInvocation cs = none := by
  cases hs : searchInvocation cs with
  | none => rfl
  | some j =>
    obtain ⟨pre, hm, hmin⟩ := searchInvocation_sound cs j hs
    exact absurd ⟨pre, j, hm⟩ h

/-- CLAIM C8: for each of the two planemo invocations the Cache Checker
takes, as run identifier, the literal text captured between the angle
brackets of the first occurrence of the pattern Invocation <...> in the
combined stdout+stderr output (the capture is the non-empty
bracket-free text of the leftmost match), and when an output has no
such occurrence the run aborts with a RuntimeError, which main turns
into exit code 1. -/
theorem c8_invocation_id_extraction (out1 out2 : String) (env : GalaxyEnv) :
    ((¬ ∃ pre idc, InvMatchAt out1.data pre idc) →
        run_workflow_and_check_cache out1 out2 env
          = Except.error ("Could not get invocation ID from the initial run.")
        ∧ check_main out1 out2 env = 1)
    ∧ ((∃ pre idc, InvMatchAt out1.data pre idc) →
        (¬ ∃ pre idc, InvMatchAt out2.data pre idc) →
        run_workflow_and_check_cache out1 out2 env
          = Except.error ("Could not get invocation ID from the rerun.")
        ∧ check_main out1 out2 env = 1)
    ∧ (∀ r, run_workflow_and_check_cache out1 out2 env = Except.ok r →
        (∃ pre, InvMatchAt out1.data pre r.invocation_id.data
          ∧ ∀ pre' idc, InvMatchAt out1.data pre' idc → pre.length ≤ pre'.length)
        ∧ (∃ pre, InvMatchAt out2.data pre r.rerun_invocation_id.data
          ∧ ∀ pre' idc, InvMatchAt out2.data pre' idc → pre.length ≤ pre'.length)) := by
  refine ⟨?_, ?_, ?_⟩
  · intro hno
    have hs : searchInvocation out1.data = none := searchInvocation_none_of_no_match _ hno
    constructor
    · unfold run_workflow_and_check_cache run_planemo_and_get_invocation_id
      rw [hs]
      rfl
    · unfold check_main run_workflow_and_check_cache run_planemo_and_get_invocation_id
      rw [hs]
      rfl
  · intro hex hno2
    obtain ⟨pre, idc, hm⟩ := hex
    have hs1some := searchInvocation_complete pre out1.data idc hm
    obtain ⟨j1, hj1⟩ := Option.isSome_iff_exists.mp hs1some
    obtain ⟨prej, hmj, hminj⟩ := searchInvocation_sound _ _ hj1
    have hj1ne : j1 ≠ [] := hmj.2.1
    have hs2 : searchInvocation out2.data = none := searchInvocation_none_of_no_match _ hno2
    have hstr : (⟨j1⟩ : String) ≠ "" := fun hEq => hj1ne (congrArg String.data hEq)
    constructor
    · unfold run_workflow_and_check_cache run_planemo_and_get_invocation_id
      rw [hj1, hs2]
      simp only [Option.map_some', Option.map_none']
      rw [if_neg hstr]
    · unfold check_main run_workflow_and_check_cache run_planemo_and_get_invocation_id
      rw [hj1, hs2]
      simp only [Option.map_some', Option.map_none']
      rw [if_neg hstr]
  · intro r h
    unfold run_workflow_and_check_cache run_planemo_and_get_invocation_id at h
    cases hs1 : searchInvocation out1.data with
    | none => rw [hs1] at h; simp at h
    | some j1 =>
      rw [hs1] at h
      simp only [Option.map_some'] at h
      by_cases he1 : (⟨j1⟩ : String) = ""
      · rw [if_pos he1] at h; cases h
      · rw [if_neg he1] at h
        cases hs2 : searchInvocation out2.data with
        | none => rw [hs2] at h; simp at h
        | some j2 =>
          rw [hs2] at h
          simp only [Option.map_some'] at h
          by_cases he2 : (⟨j2⟩ : String) = ""
          · rw [if_pos he2] at h; cases h
          · rw [if_neg he2] at h
            injection h with hrec
            subst hrec
            constructor
            · obtain ⟨pre1, hm1, hmin1⟩ := searchInvocation_sound _ _ hs1
              exact ⟨pre1, hm1, hmin1⟩
            · obtain ⟨pre2, hm2, hmin2⟩ := searchInvocation_sound _ _ hs2
              exact ⟨pre2, hm2, hmin2⟩

theorem c8_invocation_id_extraction_witness :
    run_workflow_and_check_cache ("planemo failed") ("x") envOneCopied
      = Except.error ("Could not get invocation ID from the initial run.")
    ∧ check_main ("planemo failed") ("x") envOneCopied = 1 :=
  (c8_invocation_id_extraction ("planemo failed") ("x") envOneCopied).1
    (fun hex => by
      obtain ⟨pre, idc, hm⟩ := hex
      have hc := searchInvocation_complete pre ("planemo failed".data) idc hm
      rw [show searchInvocation ("planemo failed".data) = none from rfl] at hc
      simp at hc)

/-- CLAIM C9 counterexample: a non-200 response whose JSON body is null.
The claim says an API error (the script's APIError) is raised; the code
evaluates response.json()["err_msg"], which on a null body raises a
TypeError instead — still aborting the run with exit 1, but not as an
APIError. -/
theorem c9_claim_counterexample :
    make_get_request ⟨500, Yaml.null⟩ = Except.error PyError.typeError := rfl

/-- CLAIM C9 (amended): a response with status other than 200 raises an
error — the APIError carrying the body's err_msg value whenever the
decoded body is a mapping containing that key, otherwise the error of
the failed err_msg lookup — and any such error aborts the run with exit
code 1; a response with status 200 returns the decoded JSON body
without error to the continuation. -/
theorem c9_non200_aborts_amended (r : HttpResponse) (k : Yaml → Except PyError Yaml) :
    (r.status_code ≠ 200 →
        (∃ e, make_get_request r = Except.error e)
        ∧ cli_exit ((make_get_request r).bind k) = 1
        ∧ (∀ m, json_index r.body ("err_msg") = Except.ok m →
            make_get_request r = Except.error (PyError.apiError m)))
    ∧ (r.status_code = 200 →
        make_get_request r = Except.ok r.body
        ∧ (make_get_request r).bind k = k r.body) := by
  constructor
  · intro hne
    have hcond : (r.status_code != 200) = true := bne_iff_ne.mpr hne
    refine ⟨?_, ?_, ?_⟩
    · unfold make_get_request
      rw [if_pos hcond]
      cases hj : json_index r.body ("err_msg") with
      | ok m => exact ⟨PyError.apiError m, rfl⟩
      | error e => exact ⟨e, rfl⟩
    · unfold make_get_request
      rw [if_pos hcond]
      cases hj : json_index r.body ("err_msg") with
      | ok m => rfl
      | error e => rfl
    · intro m hm
      unfold make_get_request
      rw [if_pos hcond, hm]
  · intro he
    have hcond : ¬ ((r.status_code != 200) = true) := by simp [he]
    constructor
    · unfold make_get_request
      rw [if_neg hcond]
    · unfold make_get_request
      rw [if_neg hcond]
      rfl

theorem c9_non200_aborts_amended_witness :
    cli_exit ((make_get_request ⟨500, Yaml.dict [("err_msg", Yaml.str ("boom"))]⟩).bind
      Except.ok) = 1 :=
  ((c9_non200_aborts_amended ⟨500, Yaml.dict [("err_msg", Yaml.str ("boom"))]⟩ Except.ok).1
    (by decide)).2.1
